import Mathlib

/-!
Verification development for the epub_ocr repository: a shallow embedding of
the OCR caching pipeline and the chapter/TOC heuristic classifiers found in
`epub_extractor.py`, `extract_epub_enhanced.py`, `scan_chapters.py`,
`parse_epub_ocr.py`, `parse_epub_ocr_v2.py`, `extract_toc.py` and
`extract_chapters.py`, together with theorems settling the published claims
about that code.

Modelling conventions:
 - Python strings are Lean `String` values; most processing happens on their
   `List Char` form.
 - The external OCR capability (pytesseract) is an explicit oracle argument,
   `Option String` valued when the embedding must distinguish an exception
   from a recognized text (`none` models `Image.open`/`image_to_string`
   raising), `String` valued when the caller already folds failures to `""`.
   The oracle is a pure function, i.e. recognition is modelled as
   deterministic in the artifact.
 - The on-disk OCR cache directory is a map from page number to the cached
   text; the images directory is a map from file name to written bytes.
 - Python regular expressions are embedded as explicit matching functions.
   The character classes of the source patterns are disjoint at every
   junction point (for instance a unit word such as the chapter glyph never
   belongs to the numeral class that precedes it), so the greedy matchers
   written here compute exactly what the backtracking engine returns; where
   this is used it is noted at the definition.
 - Python `\s` and `str.strip` cover all Unicode whitespace; the embedding
   uses the ASCII whitespace characters plus the two non-ASCII blanks
   (U+00A0, U+3000) that occur in Chinese OCR output.
 - Python `\d` covers all Unicode decimal digits; the embedding uses the
   ASCII digits, the only digits the surrounding code paths can feed it.
-/

namespace EpubOcr

/-- Whitespace predicate used for Python `\s` and `str.strip`. -/
def isPySpace (c : Char) : Bool :=
  c = ' ' || c = '\t' || c = '\n' || c = '\r' || c = '\x0b' || c = '\x0c' ||
  c = ' ' || c = '　'

/-- ASCII decimal digit, the embedding of Python `\d`. -/
def isAsciiDigit (c : Char) : Bool := '0' ≤ c && c ≤ '9'

/-- Character class of the regex `[…\.]` (and `[\.\…]`): an ellipsis or dot. -/
def isDots (c : Char) : Bool := c = '…' || c = '.'

/-- Numeral class `[一二三四五六七八九十百千\d]` shared by most scripts. -/
def isNumCommon (c : Char) : Bool :=
  c = '一' || c = '二' || c = '三' || c = '四' || c = '五' || c = '六' ||
  c = '七' || c = '八' || c = '九' || c = '十' || c = '百' || c = '千' ||
  isAsciiDigit c

/-- Numeral class `[一二三四五六七八九十百千零\d]` of extract_chapters.py, which
    additionally lists the zero glyph. -/
def isNumZero (c : Char) : Bool := isNumCommon c || c = '零'

/-- Section-unit class `[章节篇部卷回]` of extract_toc.py and parse_epub_ocr.py. -/
def unitsFull : List Char := ['章', '节', '篇', '部', '卷', '回']

/-- Python `str.strip`: drop leading and trailing whitespace. -/
def pyStrip (cs : List Char) : List Char :=
  ((cs.dropWhile isPySpace).reverse.dropWhile isPySpace).reverse

/-- Python `str.split` on a newline: split at every `\n`, keeping empty parts
    (so the result is never the empty list). -/
def splitLines : List Char → List (List Char)
  | [] => [[]]
  | c :: cs =>
    if c = '\n' then [] :: splitLines cs
    else
      match splitLines cs with
      | [] => [[c]]
      | l :: ls => (c :: l) :: ls

/-- Python `' '.join`. -/
def joinSpace : List (List Char) → List Char
  | [] => []
  | [l] => l
  | l :: ls => l ++ ' ' :: joinSpace ls

/-- Embedding of `re.sub(r'\s+', ' ', s)`: every maximal whitespace run becomes
    one space.  The boolean records whether the previous character belonged to
    the run being collapsed. -/
def collapseWsAux : Bool → List Char → List Char
  | _, [] => []
  | prevWs, c :: cs =>
    if isPySpace c then
      if prevWs then collapseWsAux true cs else ' ' :: collapseWsAux true cs
    else c :: collapseWsAux false cs

/-- Collapse internal whitespace runs to a single space (`re.sub(r'\s+', ' ', s)`). -/
def collapseWs (cs : List Char) : List Char := collapseWsAux false cs

/-- Embedding of `re.sub(r'[…\.]{2,}.*$', '', s)` on newline-free input (every
    call site applies it after newlines are gone): truncate at the first
    position where two consecutive ellipsis-or-dot characters occur. -/
def sub2 : List Char → List Char
  | [] => []
  | [c] => [c]
  | c1 :: c2 :: rest =>
    if isDots c1 && isDots c2 then [] else c1 :: sub2 (c2 :: rest)

/-- Embedding of `re.sub(r'[…\.]+.*$', '', s)` on newline-free input: truncate
    at the first ellipsis-or-dot character. -/
def sub1 : List Char → List Char
  | [] => []
  | c :: rest => if isDots c then [] else c :: sub1 rest

/-- Embedding of `re.sub(r'\(\d+\)$', '', s)`: strip one trailing parenthesized
    digit run if present. -/
def stripPageParen (cs : List Char) : List Char :=
  match cs.reverse with
  | ')' :: rest =>
    let ds := rest.takeWhile isAsciiDigit
    let r2 := rest.dropWhile isAsciiDigit
    if ds.isEmpty then cs
    else
      match r2 with
      | '(' :: r3 => r3.reverse
      | _ => cs
  | _ => cs

/-- Maximal run of characters satisfying `p` (regex `[class]*` greedy), with
    the remainder. -/
def takeRun (p : Char → Bool) : List Char → List Char × List Char
  | [] => ([], [])
  | c :: cs =>
    if p c then
      let r := takeRun p cs
      (c :: r.1, r.2)
    else ([], c :: cs)

/-- Up to `k` characters satisfying `p` (regex `[class]{0,k}` greedy with
    nothing mandatory after it), with the remainder. -/
def takeUpTo (p : Char → Bool) : Nat → List Char → List Char × List Char
  | _, [] => ([], [])
  | 0, cs => ([], cs)
  | k + 1, c :: cs =>
    if p c then
      let r := takeUpTo p k cs
      (c :: r.1, r.2)
    else ([], c :: cs)

end EpubOcr

namespace EpubOcr

/-- Result of one `ocr_single_page` call of epub_extractor.py: the returned
    text, the OCR cache directory afterwards, and how many times the external
    recognition capability was invoked during the call. -/
structure OcrOutcome where
  text : String
  cache : Nat → Option String
  calls : Nat

/-- Embedding of `ocr_single_page(image_path, ocr_dir, page_num)` from
    epub_extractor.py.  The cache directory is the map from page number to the
    cached text (`page_%04d.txt` files); `oracle` is pytesseract together with
    `Image.open`, returning `none` when that code raises.  On a cache hit the
    cached text is returned and recognition is not invoked; on a miss the
    oracle runs, and only a successful result is written back — the except
    branch prints a warning and returns the empty string without writing. -/
def ocr_single_page (oracle : String → Option String) (cache : Nat → Option String)
    (image_path : String) (page_num : Nat) : OcrOutcome :=
  match cache page_num with
  | some t => ⟨t, cache, 0⟩
  | none =>
    match oracle image_path with
    | some text => ⟨text, fun q => if q = page_num then some text else cache q, 1⟩
    | none => ⟨"", cache, 1⟩

/-- Embedding of one iteration of the OCR loop of `process_pages` in
    extract_epub_enhanced.py for an in-range page: skip when the cache file
    exists, otherwise run `ocr_image_enhanced` (which folds an exception into
    the empty string) and unconditionally write the result.  Returns the cache
    afterwards and the number of oracle invocations. -/
def process_page_enhanced (oracle : String → Option String) (cache : Nat → Option String)
    (image_path : String) (page_num : Nat) : (Nat → Option String) × Nat :=
  match cache page_num with
  | some _ => (cache, 0)
  | none =>
    let text := (oracle image_path).getD ""
    (fun q => if q = page_num then some text else cache q, 1)

/-- Claim C1 (counterexample): with an uncached page whose recognition call
    fails, two successive `ocr_single_page` calls invoke the recognition
    capability twice, refuting the at-most-once bound of the claim. -/
theorem claim1_counterexample :
    (ocr_single_page (fun _ => none) (fun _ => none) "page_0001.png" 1).calls +
      (ocr_single_page (fun _ => none)
        (ocr_single_page (fun _ => none) (fun _ => none) "page_0001.png" 1).cache
        "page_0001.png" 1).calls = 2 ∧
    ¬ ((ocr_single_page (fun _ => none) (fun _ => none) "page_0001.png" 1).calls +
      (ocr_single_page (fun _ => none)
        (ocr_single_page (fun _ => none) (fun _ => none) "page_0001.png" 1).cache
        "page_0001.png" 1).calls ≤ 1) := by
  constructor
  · rfl
  · decide

/-- Claim C1 (amended): two successive `ocr_single_page` calls on the same page
    always return identical text; when a persisted result exists or the
    recognition capability succeeds, recognition is invoked at most once
    across the two calls (when recognition fails, nothing is persisted and the
    second call retries); a cache hit is returned unchanged without invoking
    recognition; and the enhanced pipeline`s per-page step persists even a
    failed result, so its second run never invokes recognition. -/
theorem recognize_idempotent_amended (oracle : String → Option String)
    (cache : Nat → Option String) (img : String) (p : Nat) :
    (ocr_single_page oracle cache img p).text =
      (ocr_single_page oracle (ocr_single_page oracle cache img p).cache img p).text ∧
    ((cache p).isSome = true ∨ (oracle img).isSome = true →
      (ocr_single_page oracle cache img p).calls +
        (ocr_single_page oracle (ocr_single_page oracle cache img p).cache img p).calls ≤ 1) ∧
    (∀ t, cache p = some t →
      (ocr_single_page oracle cache img p).text = t ∧
      (ocr_single_page oracle cache img p).calls = 0) ∧
    (process_page_enhanced oracle
      (process_page_enhanced oracle cache img p).1 img p).2 = 0 := by
  rcases hc : cache p with _ | t
  · rcases ho : oracle img with _ | s
    · refine ⟨?_, ?_, ?_, ?_⟩
      · simp [ocr_single_page, hc, ho]
      · rintro (h | h) <;> simp at h
      · intro t ht; simp [hc] at ht
      · simp [process_page_enhanced, hc, ho]
    · refine ⟨?_, ?_, ?_, ?_⟩
      · simp [ocr_single_page, hc, ho]
      · intro _; simp [ocr_single_page, hc, ho]
      · intro t ht; simp [hc] at ht
      · simp [process_page_enhanced, hc, ho]
  · refine ⟨?_, ?_, ?_, ?_⟩
    · simp [ocr_single_page, hc]
    · intro _; simp [ocr_single_page, hc]
    · intro u hu
      injection hu with h1
      subst h1
      simp [ocr_single_page, hc]
    · simp [process_page_enhanced, hc]

/-- Claim C1 (witness): the amended theorem applied to a concrete one-page
    store with a succeeding oracle. -/
theorem recognize_idempotent_amended_witness :
    ((fun _ : String => some "hello") "page_0001.png").isSome = true ∧
    (ocr_single_page (fun _ => some "hello") (fun _ => none) "page_0001.png" 1).calls +
      (ocr_single_page (fun _ => some "hello")
        (ocr_single_page (fun _ => some "hello") (fun _ => none) "page_0001.png" 1).cache
        "page_0001.png" 1).calls ≤ 1 := by
  refine ⟨rfl, ?_⟩
  exact (recognize_idempotent_amended (fun _ => some "hello") (fun _ => none)
    "page_0001.png" 1).2.1 (Or.inr rfl)

/-- Claim C2 (counterexample): when recognition fails for an uncached page,
    `ocr_single_page` leaves the cache without any entry for that page — the
    empty string is returned but not persisted, refuting the claim that an
    empty string is persisted. -/
theorem claim2_counterexample :
    ((fun _ : String => (none : Option String)) "page_0001.png") = none ∧
    (ocr_single_page (fun _ => none) (fun _ => none) "page_0001.png" 1).text = "" ∧
    (ocr_single_page (fun _ => none) (fun _ => none) "page_0001.png" 1).cache 1 = none := by
  exact ⟨rfl, rfl, rfl⟩

/-- Claim C2 (amended): when the recognition call fails on an uncached page,
    `ocr_single_page` returns the empty string as a non-fatal result and
    leaves the cache unchanged (the page stays uncached), while the enhanced
    pipeline`s `process_pages` persists the empty string for the page and
    invokes recognition exactly once. -/
theorem failure_persists_empty_amended (oracle : String → Option String)
    (cache : Nat → Option String) (img : String) (p : Nat)
    (hmiss : cache p = none) (hfail : oracle img = none) :
    (ocr_single_page oracle cache img p).text = "" ∧
    (∀ q, (ocr_single_page oracle cache img p).cache q = cache q) ∧
    (process_page_enhanced oracle cache img p).1 p = some "" ∧
    (process_page_enhanced oracle cache img p).2 = 1 := by
  refine ⟨?_, ?_, ?_, ?_⟩
  · simp [ocr_single_page, hmiss, hfail]
  · intro q; simp [ocr_single_page, hmiss, hfail]
  · simp [process_page_enhanced, hmiss, hfail]
  · simp [process_page_enhanced, hmiss, hfail]

/-- Claim C2 (witness): the amended theorem applied to a concrete failing
    oracle and empty cache. -/
theorem failure_persists_empty_amended_witness :
    ((fun _ : Nat => (none : Option String)) 1 = none) ∧
    ((fun _ : String => (none : Option String)) "page_0001.png" = none) ∧
    (process_page_enhanced (fun _ => none) (fun _ => none) "page_0001.png" 1).1 1 = some "" := by
  refine ⟨rfl, rfl, ?_⟩
  exact (failure_persists_empty_amended (fun _ => none) (fun _ => none)
    "page_0001.png" 1 rfl rfl).2.2.1

end EpubOcr

namespace EpubOcr

/-- Embedding of an at-position match attempt of the regex family
    `第[numeral]+[unit]tailclass{0,tailMax}`: the first character must be the
    ordinal-marker glyph, followed by one or more numeral-class characters,
    one unit character, and a greedy bounded tail.  Returns the matched text
    and the remainder.  The unit characters never belong to the numeral class,
    so the greedy numeral run never needs backtracking. -/
def matchHeaderAt (num : Char → Bool) (units : List Char) (tailP : Char → Bool)
    (tailMax : Nat) (cs : List Char) : Option (List Char × List Char) :=
  match cs with
  | [] => none
  | c :: rest =>
    if c = '第' then
      match takeRun num rest with
      | ([], _) => none
      | (_, []) => none
      | (ns, u :: r2) =>
        if u ∈ units then
          let t := takeUpTo tailP tailMax r2
          some (c :: (ns ++ u :: t.1), t.2)
        else none
    else none

/-- Embedding of `re.search` for a matcher: try every start position from the
    left, return the first match. -/
def searchFirst (m : List Char → Option (List Char × List Char)) :
    List Char → Option (List Char)
  | [] => (m []).map Prod.fst
  | c :: cs =>
    match m (c :: cs) with
    | some r => some r.1
    | none => searchFirst m cs

/-- Fuel-driven worker for `findAll`; the fuel starts above the input length
    and every step consumes at least one character, so it never runs out. -/
def findAllAux (m : List Char → Option (List Char × List Char)) :
    Nat → List Char → List (List Char)
  | 0, _ => []
  | fuel + 1, cs =>
    match m cs with
    | some r => r.1 :: findAllAux m fuel r.2
    | none =>
      match cs with
      | [] => []
      | _ :: rest => findAllAux m fuel rest

/-- Embedding of `re.findall` for a matcher: all non-overlapping matches,
    scanning left to right and resuming after each match. -/
def findAll (m : List Char → Option (List Char × List Char)) (cs : List Char) :
    List (List Char) :=
  findAllAux m (cs.length + 1) cs

/-- Literal-prefix matcher: if `pat` is a prefix of `cs`, return the rest. -/
def matchLit : List Char → List Char → Option (List Char)
  | [], cs => some cs
  | _ :: _, [] => none
  | p :: ps, c :: cs => if c = p then matchLit ps cs else none

/-- Embedding of the Python `in` substring test. -/
def containsSub (pat : List Char) : List Char → Bool
  | [] => (matchLit pat []).isSome
  | c :: cs => (matchLit pat (c :: cs)).isSome || containsSub pat cs

/-- Embedding of `extract_chapter_from_page(text)` from scan_chapters.py: join
    the first 5 lines of the stripped text, `re.search` the pattern
    `第[一二三四五六七八九十百千\d]+章[^\n]{0,30}` anywhere in that prefix, and
    clean the match (strip, collapse whitespace, truncate at a 2-run of
    ellipsis/dot characters, strip).  The guard `if not lines` of the source
    is unreachable because `str.split` never returns an empty list. -/
def extract_chapter_from_page (text : String) : Option String :=
  let lines := splitLines (pyStrip text.toList)
  let fl := joinSpace (lines.take 5)
  match searchFirst (matchHeaderAt isNumCommon ['章'] (fun c => c ≠ '\n') 30) fl with
  | none => none
  | some m => some (String.mk (pyStrip (sub2 (collapseWs (pyStrip m)))))

/-- Embedding of the per-page check of `scan_all_pages_for_chapters` in
    parse_epub_ocr.py (lines 122-133): join the first 3 lines of the stripped
    text, require the anchored `re.match(r'^[\s]*第[...]+[章节篇部卷回]', ...)`,
    then `re.search` the full pattern `第[...]+[章节篇部卷回][^\n]{0,30}` and
    return the stripped match.  The greedy `[\s]*` run is exactly the maximal
    whitespace prefix because the marker glyph is not whitespace. -/
def scan_page_chapter_v1 (text : String) : Option String :=
  let lines := splitLines (pyStrip text.toList)
  let fl := joinSpace (lines.take 3)
  if (matchHeaderAt isNumCommon unitsFull (fun _ => false) 0 (fl.dropWhile isPySpace)).isSome then
    match searchFirst (matchHeaderAt isNumCommon unitsFull (fun c => c ≠ '\n') 30) fl with
    | some m => some (String.mk (pyStrip m))
    | none => none
  else none

/-- Specification-side reading of the ChapterStart rule: the joined prefix of
    the text's first `window` lines decomposes into a purely-whitespace lead
    followed by a suffix that begins with the chapter-opening pattern (ordinal
    marker, numerals, unit word) — no leading non-whitespace characters before
    the marker. -/
def anchoredChapterStart (window : Nat) (text : String) : Prop :=
  ∃ w rest,
    joinSpace ((splitLines (pyStrip text.toList)).take window) = w ++ rest ∧
    (∀ c ∈ w, isPySpace c = true) ∧
    (matchHeaderAt isNumCommon unitsFull (fun _ => false) 0 rest).isSome = true

theorem matchHeaderAt_ne_space {num : Char → Bool} {units : List Char}
    {tailP : Char → Bool} {tailMax : Nat} {cs : List Char}
    (h : (matchHeaderAt num units tailP tailMax cs).isSome = true) :
    ∃ t, cs = '第' :: t := by
  match cs with
  | [] => simp [matchHeaderAt] at h
  | c :: rest =>
    refine ⟨rest, ?_⟩
    by_cases hc : c = '第'
    · rw [hc]
    · simp [matchHeaderAt, hc] at h

theorem dropWhile_append_all {p : Char → Bool} {w x : List Char}
    (hw : ∀ c ∈ w, p c = true) :
    List.dropWhile p (w ++ x) = List.dropWhile p x := by
  induction w with
  | nil => rfl
  | cons c cw ih =>
    have hc : p c = true := hw c (List.mem_cons_self c cw)
    simpa [List.dropWhile, hc] using ih (fun d hd => hw d (List.mem_cons_of_mem c hd))

/-- Helper: the anchored claim-side condition is equivalent to running the
    header matcher after dropping the maximal whitespace prefix, which is what
    the anchored `re.match` of parse_epub_ocr.py computes. -/
theorem anchoredChapterStart_iff (window : Nat) (text : String) :
    anchoredChapterStart window text ↔
      (matchHeaderAt isNumCommon unitsFull (fun _ => false) 0
        ((joinSpace ((splitLines (pyStrip text.toList)).take window)).dropWhile isPySpace)).isSome
        = true := by
  constructor
  · rintro ⟨w, rest, heq, hw, hm⟩
    rw [heq, dropWhile_append_all hw]
    obtain ⟨t, ht⟩ := matchHeaderAt_ne_space hm
    subst ht
    rwa [List.dropWhile_cons_of_neg (by simp [isPySpace])]
  · intro h
    refine ⟨(joinSpace ((splitLines (pyStrip text.toList)).take window)).takeWhile isPySpace,
      (joinSpace ((splitLines (pyStrip text.toList)).take window)).dropWhile isPySpace,
      (List.takeWhile_append_dropWhile isPySpace _).symm, ?_, h⟩
    intro c hc
    exact List.mem_takeWhile_imp hc

theorem searchFirst_isSome_of_dropWhile {p : Char → Bool}
    {m : List Char → Option (List Char × List Char)} {cs : List Char}
    (h : (m (cs.dropWhile p)).isSome = true) : (searchFirst m cs).isSome = true := by
  induction cs with
  | nil =>
    simp only [List.dropWhile_nil] at h
    simpa [searchFirst] using h
  | cons c rest ih =>
    by_cases hp : p c
    · rw [List.dropWhile_cons_of_pos hp] at h
      rw [searchFirst]
      match hm : m (c :: rest) with
      | some r => simp
      | none => simpa using ih h
    · rw [List.dropWhile_cons_of_neg (by simpa using hp)] at h
      rw [searchFirst]
      match hm : m (c :: rest) with
      | some r => simp
      | none => rw [hm] at h; simp at h

theorem matchHeaderAt_isSome_tail_irrel (num : Char → Bool) (units : List Char)
    (tp1 tp2 : Char → Bool) (tm1 tm2 : Nat) (cs : List Char) :
    (matchHeaderAt num units tp1 tm1 cs).isSome =
      (matchHeaderAt num units tp2 tm2 cs).isSome := by
  match cs with
  | [] => rfl
  | c :: rest =>
    by_cases hc : c = '第'
    · simp only [matchHeaderAt, if_pos hc]
      rcases htr : takeRun num rest with ⟨ns, r⟩
      rcases ns with _ | ⟨n, ns⟩
      · simp
      · rcases r with _ | ⟨u, r2⟩
        · simp
        · by_cases hu : u ∈ units <;> simp [hu]
    · simp [matchHeaderAt, hc]

/-- Claim C3 (counterexample): a page whose prefix contains the chapter
    pattern only after leading non-whitespace text (a running head before the
    marker) is still labeled as a chapter start by scan_chapters.py's
    `extract_chapter_from_page`, because it uses an unanchored `re.search`;
    the anchored condition of the claim is false for this text. -/
theorem claim3_counterexample :
    extract_chapter_from_page "前言 第一章 绪论" = some "第一章 绪论" ∧
    ¬ anchoredChapterStart 5 "前言 第一章 绪论" := by
  constructor
  · decide
  · rw [anchoredChapterStart_iff]
    decide

/-- Claim C3 (amended): the anchoring half of the claim holds for the
    full-book scanner of parse_epub_ocr.py: its per-page check labels a text
    as a chapter start if and only if the joined prefix of the first 3 lines,
    after a purely-whitespace lead, begins with the chapter-opening pattern;
    scan_chapters.py's `extract_chapter_from_page`, by contrast, also accepts
    the pattern at non-initial positions (see the counterexample). -/
theorem chapter_start_anchored_amended (text : String) :
    (scan_page_chapter_v1 text).isSome = true ↔ anchoredChapterStart 3 text := by
  rw [anchoredChapterStart_iff]
  constructor
  · intro h
    rw [scan_page_chapter_v1] at h
    by_cases ha : (matchHeaderAt isNumCommon unitsFull (fun _ => false) 0
        ((joinSpace ((splitLines (pyStrip text.toList)).take 3)).dropWhile isPySpace)).isSome = true
    · exact ha
    · simp only [Bool.not_eq_true] at ha
      rw [ha] at h
      simp at h
  · intro h
    rw [scan_page_chapter_v1]
    simp only [h, if_true]
    have h30 : (matchHeaderAt isNumCommon unitsFull (fun c => c ≠ '\n') 30
        ((joinSpace ((splitLines (pyStrip text.toList)).take 3)).dropWhile isPySpace)).isSome
        = true := by
      rw [matchHeaderAt_isSome_tail_irrel isNumCommon unitsFull _ (fun _ => false) _ 0]
      exact h
    have hs := searchFirst_isSome_of_dropWhile h30
    match hm : searchFirst (matchHeaderAt isNumCommon unitsFull (fun c => c ≠ '\n') 30)
        (joinSpace ((splitLines (pyStrip text.toList)).take 3)) with
    | some m => simp
    | none => rw [hm] at hs; simp at hs

/-- Claim C3 (witness): the amended equivalence applied to the spec's own
    chapter-start example text. -/
theorem chapter_start_anchored_amended_witness :
    (scan_page_chapter_v1 "第3章 实验结果\n本章讨论").isSome = true := by
  refine (chapter_start_anchored_amended "第3章 实验结果\n本章讨论").mpr ?_
  rw [anchoredChapterStart_iff]
  decide

end EpubOcr

namespace EpubOcr

/-- Case-insensitive literal prefix test for an ASCII pattern given in
    lowercase, the embedding of an `re.IGNORECASE` literal such as `CONTENTS`. -/
def ciStarts : List Char → List Char → Bool
  | [], _ => true
  | _ :: _, [] => false
  | p :: ps, c :: cs => (c.toLower = p) && ciStarts ps cs

/-- Embedding of a match attempt of `目\s*录|目\s*次|CONTENTS` (with
    `re.IGNORECASE`) at one position.  The greedy `\s*` run is the maximal
    whitespace run because the glyphs that must follow it are not whitespace. -/
def tocMarkerAt (cs : List Char) : Bool :=
  (match cs with
   | '目' :: r =>
     match r.dropWhile isPySpace with
     | '录' :: _ => true
     | '次' :: _ => true
     | _ => false
   | _ => false) ||
  ciStarts ['c', 'o', 'n', 't', 'e', 'n', 't', 's'] cs

/-- Embedding of `re.search` for the TOC marker: some position matches. -/
def hasTocMarker : List Char → Bool
  | [] => tocMarkerAt []
  | c :: cs => tocMarkerAt (c :: cs) || hasTocMarker cs

/-- Embedding of one line's contribution to
    `re.findall(r'[^\n]+\d+\s*$', text, re.MULTILINE)`: the pattern cannot
    cross a newline (`[^\n]` and `\d` exclude it, and a greedy `\s*` that
    swallowed a newline would only ever swallow whitespace-only lines, which
    contribute no match of their own), so the findall count equals the number
    of newline-separated lines that consist of at least one character, then at
    least one digit, then only trailing whitespace — equivalently, lines whose
    right-stripped form has length at least 2 and ends in a digit. -/
def lineEndsNum (l : List Char) : Bool :=
  match l.reverse.dropWhile isPySpace with
  | c :: _ :: _ => isAsciiDigit c
  | _ => false

/-- Embedding of `is_toc_page(text)` from extract_toc.py: an explicit TOC
    marker occurs somewhere, or at least 5 lines carry a trailing page
    number. -/
def is_toc_page (text : String) : Bool :=
  hasTocMarker text.toList ||
    decide (5 ≤ ((splitLines text.toList).filter lineEndsNum).length)

theorem digit_not_space {c : Char} (h : isAsciiDigit c = true) : isPySpace c = false := by
  by_contra hsp
  rw [Bool.not_eq_false] at hsp
  simp only [isPySpace, Bool.or_eq_true, decide_eq_true_eq] at hsp
  rcases hsp with ((((((h1 | h1) | h1) | h1) | h1) | h1) | h1) | h1 <;>
    subst h1 <;> simp [isAsciiDigit] at h

theorem hasTocMarker_iff (cs : List Char) :
    hasTocMarker cs = true ↔ ∃ i, tocMarkerAt (cs.drop i) = true := by
  induction cs with
  | nil =>
    simp only [List.drop_nil]
    constructor
    · intro h; exact ⟨0, h⟩
    · rintro ⟨i, hi⟩; exact hi
  | cons c cs ih =>
    rw [hasTocMarker, Bool.or_eq_true]
    constructor
    · rintro (h1 | h2)
      · exact ⟨0, h1⟩
      · obtain ⟨i, hi⟩ := ih.mp h2
        exact ⟨i + 1, hi⟩
    · rintro ⟨i, hi⟩
      rcases i with _ | i
      · exact Or.inl hi
      · exact Or.inr (ih.mpr ⟨i, hi⟩)

theorem lineEndsNum_iff (l : List Char) :
    lineEndsNum l = true ↔
      ∃ a d w, l = a ++ d ++ w ∧ a ≠ [] ∧ d ≠ [] ∧
        (∀ c ∈ d, isAsciiDigit c = true) ∧ (∀ c ∈ w, isPySpace c = true) := by
  constructor
  · intro h
    rw [lineEndsNum] at h
    rcases hr : l.reverse.dropWhile isPySpace with _ | ⟨c, tail⟩
    · rw [hr] at h; simp at h
    · rcases tail with _ | ⟨c2, rest⟩
      · rw [hr] at h; simp at h
      · rw [hr] at h
        refine ⟨rest.reverse ++ [c2], [c], (l.reverse.takeWhile isPySpace).reverse,
          ?_, by simp, by simp, ?_, ?_⟩
        · have h1 : l.reverse.takeWhile isPySpace ++ (c :: c2 :: rest) = l.reverse := by
            rw [← hr, List.takeWhile_append_dropWhile]
          conv_lhs => rw [← List.reverse_reverse l, ← h1]
          simp
        · intro x hx
          rw [List.mem_singleton] at hx
          subst hx
          exact h
        · intro x hx
          rw [List.mem_reverse] at hx
          exact List.mem_takeWhile_imp hx
  · rintro ⟨a, d, w, heq, ha, hd, hdig, hws⟩
    rcases hdr : d.reverse with _ | ⟨dc, dt⟩
    · rw [List.reverse_eq_nil_iff] at hdr
      exact absurd hdr hd
    · have hrev : l.reverse = w.reverse ++ (dc :: (dt ++ a.reverse)) := by
        rw [heq]
        simp only [List.reverse_append]
        rw [hdr]
        simp
      have hdc : dc ∈ d := by
        have : dc ∈ d.reverse := by rw [hdr]; exact List.mem_cons_self _ _
        rwa [List.mem_reverse] at this
      have hdcd : isAsciiDigit dc = true := hdig dc hdc
      have hdrop : l.reverse.dropWhile isPySpace = dc :: (dt ++ a.reverse) := by
        rw [hrev, dropWhile_append_all (fun x hx => hws x (List.mem_reverse.mp hx)),
          List.dropWhile_cons_of_neg]
        rw [digit_not_space hdcd]
        simp
      rw [lineEndsNum, hdrop]
      obtain ⟨x, xs, hxs⟩ : ∃ x xs, dt ++ a.reverse = x :: xs := by
        rcases hta : dt ++ a.reverse with _ | ⟨x, xs⟩
        · rw [List.append_eq_nil] at hta
          exact absurd (List.reverse_eq_nil_iff.mp hta.2) ha
        · exact ⟨x, xs, rfl⟩
      rw [hxs]
      exact hdcd

/-- Embedding of the TOC test of `find_toc_and_extract_chapters` in
    parse_epub_ocr_v2.py (`is_toc = '目录' in text or '目 录' in text or
    '目 次' in text`): plain substring membership of the three Chinese marker
    spellings — no trailing-page-number disjunct and no Latin marker. -/
def is_toc_v2 (text : String) : Bool :=
  containsSub "目录".toList text.toList || containsSub "目 录".toList text.toList ||
    containsSub "目 次".toList text.toList

theorem containsSub_iff (pat cs : List Char) :
    containsSub pat cs = true ↔ ∃ i, (matchLit pat (cs.drop i)).isSome = true := by
  induction cs with
  | nil =>
    simp only [List.drop_nil]
    rw [containsSub]
    constructor
    · intro h; exact ⟨0, h⟩
    · rintro ⟨i, hi⟩; exact hi
  | cons c cs ih =>
    rw [containsSub, Bool.or_eq_true]
    constructor
    · rintro (h1 | h2)
      · exact ⟨0, h1⟩
      · obtain ⟨i, hi⟩ := ih.mp h2
        exact ⟨i + 1, hi⟩
    · rintro ⟨i, hi⟩
      rcases i with _ | i
      · exact Or.inl hi
      · exact Or.inr (ih.mpr ⟨i, hi⟩)

/-- Claim C4 (counterexample): the TOC test of parse_epub_ocr_v2.py is the
    Chinese-marker substring check alone: a text with five trailing-numeric
    lines — which the claim's page-number disjunct accepts, as extract_toc.py
    does — is not labeled TableOfContents by it, and neither is a Latin
    `Contents` marker, refuting the claimed biconditional for that cited
    implementation. -/
theorem claim4_counterexample :
    5 ≤ ((splitLines ("a1\nb2\nc3\nd4\ne5" : String).toList).filter lineEndsNum).length ∧
    is_toc_page "a1\nb2\nc3\nd4\ne5" = true ∧
    is_toc_v2 "a1\nb2\nc3\nd4\ne5" = false ∧
    is_toc_page "Contents" = true ∧
    is_toc_v2 "Contents" = false := by
  refine ⟨by decide, by decide, by decide, by decide, by decide⟩

/-- Claim C4 (amended): extract_toc.py's `is_toc_page` labels a text
    TableOfContents exactly when an explicit TOC marker occurs at some
    position of the text (the `目录`/`目次`/`CONTENTS` family, case-insensitive
    for the Latin variant) or at least 5 lines end in a trailing numeric
    token — either disjunct alone suffices; parse_epub_ocr_v2.py's TOC test
    instead labels exactly when one of the three Chinese marker spellings
    occurs as a substring, with no trailing-numeric-lines disjunct and no
    Latin marker.  The final conjunct characterizes "line ends in a trailing
    numeric token": the line splits into a nonempty head, a nonempty digit
    run, and trailing whitespace. -/
theorem toc_classification_amended (text : String) :
    (is_toc_page text = true ↔
      (∃ i, tocMarkerAt (text.toList.drop i) = true) ∨
      5 ≤ ((splitLines text.toList).filter lineEndsNum).length) ∧
    (is_toc_v2 text = true ↔
      (∃ i, (matchLit "目录".toList (text.toList.drop i)).isSome = true) ∨
      (∃ i, (matchLit "目 录".toList (text.toList.drop i)).isSome = true) ∨
      (∃ i, (matchLit "目 次".toList (text.toList.drop i)).isSome = true)) ∧
    (∀ l, lineEndsNum l = true ↔
      ∃ a d w, l = a ++ d ++ w ∧ a ≠ [] ∧ d ≠ [] ∧
        (∀ c ∈ d, isAsciiDigit c = true) ∧ (∀ c ∈ w, isPySpace c = true)) := by
  refine ⟨?_, ?_, lineEndsNum_iff⟩
  · rw [is_toc_page, Bool.or_eq_true, hasTocMarker_iff, decide_eq_true_eq]
  · rw [is_toc_v2, Bool.or_eq_true, Bool.or_eq_true, containsSub_iff, containsSub_iff,
      containsSub_iff, or_assoc]

/-- Claim C4 (witness): the amended equivalences applied to the spec's own
    TOC example, which both implementations label through the marker. -/
theorem toc_classification_amended_witness :
    is_toc_page "目录\n第一章 引言.......... 1\n第二章 方法.......... 10" = true ∧
    is_toc_v2 "目录\n第一章 引言.......... 1\n第二章 方法.......... 10" = true := by
  constructor
  · exact (toc_classification_amended _).1.mpr (Or.inl ⟨0, by decide⟩)
  · exact (toc_classification_amended _).2.1.mpr (Or.inl ⟨0, by decide⟩)

end EpubOcr

namespace EpubOcr

/-- Cleaning chain of `extract_chapter_titles_clean` in parse_epub_ocr_v2.py:
    strip, collapse whitespace, truncate at a 2-run of ellipsis/dot characters,
    strip one trailing parenthesized page number, strip. -/
def cleanTitleV2 (m : List Char) : List Char :=
  pyStrip (stripPageParen (sub2 (collapseWs (pyStrip m))))

/-- Embedding of `extract_chapter_titles_clean(text)` from parse_epub_ocr_v2.py:
    find all matches of `第[一二三四五六七八九十百千\d]+章[\s\S]{0,50}`, clean each,
    and keep cleaned titles longer than 3 characters, first occurrence only. -/
def extract_chapter_titles_clean (text : String) : List String :=
  (findAll (matchHeaderAt isNumCommon ['章'] (fun _ => true) 50) text.toList).foldl
    (fun chapters m =>
      let clean := cleanTitleV2 m
      if 3 < clean.length ∧ String.mk clean ∉ chapters then chapters ++ [String.mk clean]
      else chapters)
    []

/-- Cleaning chain of `extract_chapters_from_ocr` in extract_chapters.py:
    strip, collapse whitespace, truncate at the first ellipsis/dot run of any
    length (the source uses `[…\.]+`, one or more), strip. -/
def cleanTitleOcr (m : List Char) : List Char :=
  pyStrip (sub1 (collapseWs (pyStrip m)))

/-- Embedding of `extract_chapters_from_ocr(ocr_dir)` from extract_chapters.py,
    applied to the list of OCR text files in sorted filename order: find all
    matches of `第[一二三四五六七八九十百千零\d]+章[^\n\d]{0,30}` in each text,
    clean each match, and append it when it is nonempty, longer than 3
    characters, not yet collected, free of a vertical bar, and shorter than 50
    characters; the collected list is shared across all files. -/
def extract_chapters_from_ocr (texts : List String) : List String :=
  texts.foldl
    (fun chapters text =>
      (findAll (matchHeaderAt isNumZero ['章'] (fun c => !(c = '\n' || isAsciiDigit c)) 30)
          text.toList).foldl
        (fun chapters m =>
          let title := cleanTitleOcr m
          if title ≠ [] ∧ 3 < title.length ∧ String.mk title ∉ chapters ∧
              '|' ∉ title ∧ title.length < 50
          then chapters ++ [String.mk title]
          else chapters)
        chapters)
    []

/-- Embedding of a full match of the row tail `[\.\…]+\s*\(?\d+\)?$` of the
    first branch of `extract_toc_entries` in extract_toc.py.  Each greedy run
    is maximal because the class that must follow it is disjoint from it, and
    each optional parenthesis is forced when present. -/
def tocRowTail (cs : List Char) : Bool :=
  let r := takeRun isDots cs
  if r.1.isEmpty then false
  else
    let r2 := r.2.dropWhile isPySpace
    let r3 := match r2 with
      | '(' :: t => t
      | _ => r2
    let rd := takeRun isAsciiDigit r3
    if rd.1.isEmpty then false
    else
      match rd.2 with
      | [] => true
      | [')'] => true
      | _ => false

/-- Lazy `[\s\S]*?` search of the first branch of `extract_toc_entries`: find
    the shortest middle part after which the row tail matches to the end of
    the line, returning that middle part. -/
def splitAtTail (acc : List Char) : List Char → Option (List Char)
  | [] => none
  | c :: rest =>
    if tocRowTail (c :: rest) then some acc.reverse else splitAtTail (c :: acc) rest

/-- Embedding of the first branch
    `re.match(r'(第[一二三四五六七八九十百千\d]+[章节篇部卷回][\s\S]*?)[\.\…]+\s*\(?\d+\)?$', line)`
    of `extract_toc_entries`, returning group 1. -/
def matchTocRow (l : List Char) : Option (List Char) :=
  match matchHeaderAt isNumCommon unitsFull (fun _ => false) 0 l with
  | none => none
  | some mr =>
    match splitAtTail [] mr.2 with
    | none => none
    | some mid => some (mr.1 ++ mid)

/-- Embedding of `extract_toc_entries(text)` from extract_toc.py: per stripped
    nonempty line, try the TOC-row branch (dotted leader and page number; the
    cleaned group is kept whenever it is nonempty and new — no length or
    vertical-bar filter), and otherwise the standalone-heading branch
    `re.match(r'(第[...]+[章节篇部卷回][^\d]{0,30})', line)` whose cleaned title
    must be longer than 3 characters (again no vertical-bar filter). -/
def extract_toc_entries (text : String) : List String :=
  (splitLines text.toList).foldl
    (fun entries line =>
      let l := pyStrip line
      if l.isEmpty then entries
      else
        match matchTocRow l with
        | some g1 =>
          let title := collapseWs (pyStrip g1)
          if title ≠ [] ∧ String.mk title ∉ entries then entries ++ [String.mk title]
          else entries
        | none =>
          match matchHeaderAt isNumCommon unitsFull (fun c => !isAsciiDigit c) 30 l with
          | some md =>
            let title := collapseWs (sub1 (pyStrip md.1))
            if 3 < title.length ∧ String.mk title ∉ entries then entries ++ [String.mk title]
            else entries
          | none => entries)
    []

/-- Specification-side predicate: the text contains a run of at least 2
    consecutive ellipsis-or-dot characters. -/
def hasRun2 : List Char → Bool
  | c1 :: c2 :: rest => (isDots c1 && isDots c2) || hasRun2 (c2 :: rest)
  | _ => false

/-- Claim C6 (counterexample): extract_chapters.py truncates at a single
    isolated dot — the match `第一章 AB.CD` is normalized to `第一章 AB`, not
    kept whole, refuting the claim that only runs of at least 2 ellipsis-or-dot
    characters trigger truncation. -/
theorem claim6_counterexample :
    extract_chapters_from_ocr ["第一章 AB.CD"] = ["第一章 AB"] ∧
    extract_chapters_from_ocr ["第一章 AB.CD"] ≠ ["第一章 AB.CD"] := by
  decide

/-- Claim C6 (amended): in the normalization used by parse_epub_ocr_v2.py and
    scan_chapters.py (regex `[…\.]{2,}.*$`) the claim holds: input without a
    2-run of ellipsis-or-dot characters is unchanged (a single isolated dot
    does not truncate), and input containing such a run is truncated at the
    first one with everything after it discarded; extract_chapters.py and the
    standalone-heading branch of extract_toc.py instead use `[…\.]+` and
    already truncate at a single dot (see the counterexample). -/
theorem ellipsis_truncation_amended :
    (∀ cs, hasRun2 cs = false → sub2 cs = cs) ∧
    (∀ pre d1 d2 suf, hasRun2 (pre ++ [d1]) = false → isDots d1 = true →
      isDots d2 = true → sub2 (pre ++ d1 :: d2 :: suf) = pre) := by
  have part1 : ∀ cs, hasRun2 cs = false → sub2 cs = cs := by
    intro cs
    induction cs with
    | nil => intro _; rfl
    | cons c rest ih =>
      intro h
      rcases rest with _ | ⟨c2, rest2⟩
      · rfl
      · rw [hasRun2, Bool.or_eq_false_iff] at h
        rw [sub2, if_neg (by simp [h.1]), ih h.2]
  refine ⟨part1, ?_⟩
  intro pre d1 d2 suf
  induction pre with
  | nil =>
    intro _ h1 h2
    simp [sub2, h1, h2]
  | cons c pre2 ih =>
    intro h h1 h2
    rcases pre2 with _ | ⟨x, pre3⟩
    · simp only [List.cons_append, List.nil_append] at h ⊢
      rw [hasRun2] at h
      simp only [hasRun2, Bool.or_false] at h
      rw [sub2, if_neg (by simp [h]), sub2, if_pos (by simp [h1, h2])]
    · simp only [List.cons_append] at h ⊢
      rw [hasRun2, Bool.or_eq_false_iff] at h
      rw [sub2, if_neg (by simp [h.1])]
      have := ih h.2 h1 h2
      simp only [List.cons_append] at this
      rw [this]

/-- Claim C6 (witness): the amended truncation theorem applied to the spec's
    own extractor example, a title followed by an ellipsis run and a page
    number. -/
theorem ellipsis_truncation_amended_witness :
    hasRun2 ("第一章 绪论".toList ++ ['…']) = false ∧
    isDots '…' = true ∧
    sub2 ("第一章 绪论".toList ++ '…' :: '…' :: " 3".toList) = "第一章 绪论".toList :=
  ⟨by decide, by decide,
    ellipsis_truncation_amended.2 "第一章 绪论".toList '…' '…' " 3".toList
      (by decide) (by decide) (by decide)⟩

/-- Claim C7 (counterexample): the TOC-row branch of extract_toc.py keeps the
    3-character normalized title `第一章`, refuting the 4-character floor (and
    the branch applies no vertical-bar filter either). -/
theorem claim7_counterexample :
    extract_toc_entries "第一章… 5" = ["第一章"] ∧ ("第一章" : String).length < 4 := by
  decide

theorem mem_foldl_filtered {α : Type} (Q : String → Prop)
    (f : List String → α → List String)
    (hf : ∀ ch x t, t ∈ f ch x → t ∈ ch ∨ Q t) :
    ∀ (l : List α) (acc : List String) (t : String), t ∈ l.foldl f acc → t ∈ acc ∨ Q t := by
  intro l
  induction l with
  | nil => intro acc t h; exact Or.inl h
  | cons x xs ih =>
    intro acc t h
    rcases ih (f acc x) t h with h1 | h1
    · exact hf acc x t h1
    · exact Or.inr h1

/-- Claim C7 (amended): the 4-character floor and the vertical-bar filter both
    hold for every title emitted by `extract_chapters_from_ocr`; for
    `extract_chapter_titles_clean` only the 4-character floor holds (the
    source applies no vertical-bar filter there); and the TOC-row branch of
    `extract_toc_entries` applies neither filter (see the counterexample). -/
theorem title_filters_amended :
    (∀ texts t, t ∈ extract_chapters_from_ocr texts →
      4 ≤ t.length ∧ '|' ∉ t.toList) ∧
    (∀ text t, t ∈ extract_chapter_titles_clean text → 4 ≤ t.length) := by
  constructor
  · intro texts t h
    have hmain := mem_foldl_filtered (fun t => 4 ≤ t.length ∧ '|' ∉ t.toList) _
      (fun ch text t ht => by
        have := mem_foldl_filtered (fun t => 4 ≤ t.length ∧ '|' ∉ t.toList)
          (fun chapters m =>
            let title := cleanTitleOcr m
            if title ≠ [] ∧ 3 < title.length ∧ String.mk title ∉ chapters ∧
                '|' ∉ title ∧ title.length < 50
            then chapters ++ [String.mk title]
            else chapters)
          (fun ch2 m t2 ht2 => by
            by_cases hc : cleanTitleOcr m ≠ [] ∧ 3 < (cleanTitleOcr m).length ∧
                String.mk (cleanTitleOcr m) ∉ ch2 ∧ '|' ∉ cleanTitleOcr m ∧
                (cleanTitleOcr m).length < 50
            · simp only [if_pos hc] at ht2
              rcases List.mem_append.mp ht2 with h2 | h2
              · exact Or.inl h2
              · rw [List.mem_singleton] at h2
                subst h2
                exact Or.inr ⟨hc.2.1, hc.2.2.2.1⟩
            · simp only [if_neg hc] at ht2
              exact Or.inl ht2)
          _ ch t ht
        exact this)
      texts [] t h
    rcases hmain with h1 | h1
    · simp at h1
    · exact h1
  · intro text t h
    have hmain := mem_foldl_filtered (fun t => 4 ≤ t.length) _
      (fun ch m t2 ht2 => by
        by_cases hc : 3 < (cleanTitleV2 m).length ∧ String.mk (cleanTitleV2 m) ∉ ch
        · simp only [if_pos hc] at ht2
          rcases List.mem_append.mp ht2 with h2 | h2
          · exact Or.inl h2
          · rw [List.mem_singleton] at h2
            subst h2
            exact Or.inr hc.1
        · simp only [if_neg hc] at ht2
          exact Or.inl ht2)
      _ [] t h
    rcases hmain with h1 | h1
    · simp at h1
    · exact h1

/-- Claim C7 (witness): the amended filter theorem applied to a concrete title
    emitted by extract_chapters.py. -/
theorem title_filters_amended_witness :
    ("第二章 方法" ∈ extract_chapters_from_ocr ["第二章 方法"]) ∧
    4 ≤ ("第二章 方法" : String).length ∧ '|' ∉ ("第二章 方法" : String).toList :=
  ⟨by decide, title_filters_amended.1 ["第二章 方法"] "第二章 方法" (by decide)⟩

/-- Claim C10: every candidate kept by `extract_chapters_from_ocr` has a
    normalized title of fewer than 50 characters — any match whose normalized
    form reaches 50 characters is discarded by the `len(title) < 50` guard. -/
theorem ocr_titles_below_fifty (texts : List String) (t : String)
    (h : t ∈ extract_chapters_from_ocr texts) : t.length < 50 := by
  have hmain := mem_foldl_filtered (fun t => t.length < 50) _
    (fun ch text t2 ht => by
      have := mem_foldl_filtered (fun t => t.length < 50)
        (fun chapters m =>
          let title := cleanTitleOcr m
          if title ≠ [] ∧ 3 < title.length ∧ String.mk title ∉ chapters ∧
              '|' ∉ title ∧ title.length < 50
          then chapters ++ [String.mk title]
          else chapters)
        (fun ch2 m t3 ht2 => by
          by_cases hc : cleanTitleOcr m ≠ [] ∧ 3 < (cleanTitleOcr m).length ∧
              String.mk (cleanTitleOcr m) ∉ ch2 ∧ '|' ∉ cleanTitleOcr m ∧
              (cleanTitleOcr m).length < 50
          · simp only [if_pos hc] at ht2
            rcases List.mem_append.mp ht2 with h2 | h2
            · exact Or.inl h2
            · rw [List.mem_singleton] at h2
              subst h2
              exact Or.inr hc.2.2.2.2
          · simp only [if_neg hc] at ht2
            exact Or.inl ht2)
        _ ch t2 ht
      exact this)
    texts [] t h
  rcases hmain with h1 | h1
  · simp at h1
  · exact h1

/-- Claim C10 (witness): the bound applied to a concrete emitted title. -/
theorem ocr_titles_below_fifty_witness :
    ("第三章 结论" ∈ extract_chapters_from_ocr ["第三章 结论"]) ∧
    ("第三章 结论" : String).length < 50 :=
  ⟨by decide, ocr_titles_below_fifty ["第三章 结论"] "第三章 结论" (by decide)⟩

end EpubOcr

namespace EpubOcr

/-- Embedding of the `seen`-set deduplication loop shared by
    `find_toc_and_extract_chapters` (parse_epub_ocr_v2.py) and `scan_for_toc`
    (extract_toc.py): walk the collected titles, keep one that is not in
    `seen`, and add it to `seen`. -/
def dedupSeen : List String → List String → List String
  | _, [] => []
  | seen, c :: rest =>
    if c ∈ seen then dedupSeen seen rest else c :: dedupSeen (c :: seen) rest

/-- Deduplicate keeping first occurrences, starting from an empty seen set. -/
def dedupKeepFirst (l : List String) : List String := dedupSeen [] l

/-- Embedding of `find_toc_and_extract_chapters(image_files, max_pages)` from
    parse_epub_ocr_v2.py: per page of the early window, extract cleaned
    chapter titles from the recognized text (the `is_toc` flag there only
    drives progress printing), concatenate everything in page order, and
    deduplicate keeping first occurrences. -/
def find_toc_and_extract_chapters (ocr : String → String) (image_files : List String)
    (max_pages : Nat) : List String :=
  dedupKeepFirst
    (((image_files.take max_pages).map (fun p => extract_chapter_titles_clean (ocr p))).flatten)

/-- Embedding of `scan_for_toc(image_files, max_pages)` from extract_toc.py:
    per page of the early window, collect the TOC entries of pages classified
    as TOC pages (an `extend` of an empty extraction is a no-op, so the inner
    nonemptiness test of the source is redundant), concatenate in page order,
    and deduplicate keeping first occurrences. -/
def scan_for_toc (ocr : String → String) (image_files : List (Nat × String))
    (max_pages : Nat) : List String :=
  dedupKeepFirst
    (((image_files.take max_pages).map
      (fun p => if is_toc_page (ocr p.2) then extract_toc_entries (ocr p.2) else [])).flatten)

/-- Specification-side reading of first-occurrence deduplication: keep the
    head at its position — the position of its first occurrence — and delete
    every later duplicate of it before recursing. -/
def specDedup : List String → List String
  | [] => []
  | x :: rest => x :: specDedup (rest.filter (fun y => y ≠ x))
termination_by l => l.length
decreasing_by simp only [List.length_cons]; exact Nat.lt_succ_of_le (List.length_filter_le _ _)

theorem specDedup_sub (l : List String) : ∀ x, x ∈ specDedup l → x ∈ l := by
  induction l using specDedup.induct with
  | case1 => intro x h; simp [specDedup] at h
  | case2 y rest ih =>
    intro x h
    rw [specDedup] at h
    rcases List.mem_cons.mp h with h1 | h1
    · simp [h1]
    · exact List.mem_cons_of_mem _ (List.mem_of_mem_filter (ih x h1))

theorem specDedup_nodup (l : List String) : (specDedup l).Nodup := by
  induction l using specDedup.induct with
  | case1 => simp [specDedup]
  | case2 y rest ih =>
    rw [specDedup]
    refine List.nodup_cons.mpr ⟨fun hmem => ?_, ih⟩
    have := specDedup_sub _ _ hmem
    simp at this

theorem dedupSeen_eq_specDedup (l : List String) :
    ∀ seen, dedupSeen seen l = specDedup (l.filter (fun y => decide (y ∉ seen))) := by
  induction l with
  | nil => intro seen; simp [dedupSeen, specDedup]
  | cons c rest ih =>
    intro seen
    by_cases hc : c ∈ seen
    · rw [dedupSeen, if_pos hc, List.filter_cons_of_neg (by simp [hc]), ih]
    · rw [dedupSeen, if_neg hc, List.filter_cons_of_pos (by simp [hc]), specDedup, ih]
      congr 1
      rw [List.filter_filter]
      congr 1
      apply List.filter_congr
      intro a _
      by_cases hac : a = c
      · simp [hac]
      · by_cases has : a ∈ seen <;> simp [hac, has]

theorem dedupKeepFirst_eq_specDedup (l : List String) : dedupKeepFirst l = specDedup l := by
  rw [dedupKeepFirst, dedupSeen_eq_specDedup]
  congr 1
  apply List.filter_eq_self.mpr
  intro a _
  simp

/-- Claim C5: both scan pipelines produce a sequence of chapter candidates
    with pairwise-distinct normalized titles, and that sequence equals the
    specification-side first-occurrence deduplication of the raw title stream
    in scan order — so a title repeated during the scan keeps the position of
    its first occurrence. -/
theorem scan_result_dedup (ocr : String → String) (files : List String)
    (pairs : List (Nat × String)) (m1 m2 : Nat) :
    (find_toc_and_extract_chapters ocr files m1).Nodup ∧
    find_toc_and_extract_chapters ocr files m1 =
      specDedup (((files.take m1).map (fun p => extract_chapter_titles_clean (ocr p))).flatten) ∧
    (scan_for_toc ocr pairs m2).Nodup ∧
    scan_for_toc ocr pairs m2 =
      specDedup (((pairs.take m2).map
        (fun p => if is_toc_page (ocr p.2) then extract_toc_entries (ocr p.2) else [])).flatten) := by
  refine ⟨?_, ?_, ?_, ?_⟩
  · rw [find_toc_and_extract_chapters, dedupKeepFirst_eq_specDedup]
    exact specDedup_nodup _
  · rw [find_toc_and_extract_chapters, dedupKeepFirst_eq_specDedup]
  · rw [scan_for_toc, dedupKeepFirst_eq_specDedup]
    exact specDedup_nodup _
  · rw [scan_for_toc, dedupKeepFirst_eq_specDedup]

end EpubOcr

namespace EpubOcr

/-- Decimal value of a digit string, the embedding of Python `int` on the
    regex group. -/
def digitsToNat (ds : List Char) : Nat :=
  ds.foldl (fun acc c => acc * 10 + (c.toNat - '0'.toNat)) 0

/-- Embedding of a match attempt of `index-(\d+)` at one position: the literal
    `index-` followed by a maximal nonempty digit run, whose value is
    returned. -/
def indexNumAt (cs : List Char) : Option Nat :=
  match matchLit "index-".toList cs with
  | none => none
  | some rest =>
    let ds := rest.takeWhile isAsciiDigit
    if ds.isEmpty then none else some (digitsToNat ds)

/-- Embedding of `re.search(r'index-(\d+)', name)`: the leftmost position
    where the pattern matches. -/
def findIndexNum : List Char → Option Nat
  | [] => indexNumAt []
  | c :: cs =>
    match indexNumAt (c :: cs) with
    | some n => some n
    | none => findIndexNum cs

/-- Embedding of `name.lower().endswith(('.png', '.jpg', '.jpeg'))`. -/
def isImgName (name : List Char) : Bool :=
  let rl := (name.map Char.toLower).reverse
  (matchLit ".png".toList.reverse rl).isSome ||
  (matchLit ".jpg".toList.reverse rl).isSome ||
  (matchLit ".jpeg".toList.reverse rl).isSome

/-- Final path component, the embedding of `PurePath.name`. -/
def lastComponent (cs : List Char) : List Char :=
  (cs.reverse.takeWhile (fun c => c ≠ '/')).reverse

/-- Embedding of `Path(name).suffix`: the part of the final component from its
    last dot on, provided that dot is neither the first nor the last
    character of the component. -/
def pySuffix (cs : List Char) : List Char :=
  let base := lastComponent cs
  let pre := base.reverse.takeWhile (fun c => c ≠ '.')
  if pre.length ≠ 0 ∧ pre.length + 1 < base.length then '.' :: pre.reverse else []

/-- Embedding of the f-string `page_{page_num:04d}{ext}`: zero-pad the decimal
    form of the page number to at least 4 digits. -/
def pad4 (n : Nat) : List Char :=
  let d := Nat.toDigits 10 n
  List.replicate (4 - d.length) '0' ++ d

/-- Target file name of one extracted page image; the constant output
    directory prefix of `os.path.join` is omitted from the model. -/
def pagePath (n : Nat) (ext : List Char) : String :=
  String.mk ("page_".toList ++ pad4 n ++ ext)

/-- One zip entry's contribution to the extraction loop shared by
    `extract_all_images` (epub_extractor.py) and `extract_images_from_epub`
    (extract_toc.py, parse_epub_ocr.py, parse_epub_ocr_v2.py,
    extract_epub_enhanced.py): keep an image-suffixed name carrying an
    `index-N` marker, mapping it to its page number and target file name. -/
def keepEntry (e : String × String) : Option (Nat × String) :=
  if isImgName e.1.toList then
    (findIndexNum e.1.toList).map (fun n => (n, pagePath n (pySuffix e.1.toList)))
  else none

/-- Stable insertion of one keyed element after every element with a key less
    than or equal to its own. -/
def insSorted {α : Type} (x : Nat × α) : List (Nat × α) → List (Nat × α)
  | [] => [x]
  | y :: ys => if y.1 ≤ x.1 then y :: insSorted x ys else x :: y :: ys

/-- Embedding of the stable ascending `list.sort(key=lambda x: x[0])`. -/
def sortByFst {α : Type} (l : List (Nat × α)) : List (Nat × α) :=
  l.foldl (fun acc x => insSorted x acc) []

/-- Embedding of `extract_all_images(epub_path, output_dir)` from
    epub_extractor.py, applied to the container's entry list (name, bytes) in
    archive order: write each kept entry's bytes to its target file name
    (overwriting), append the (page number, file name) pair to the result
    list, and finally sort the list ascending by page number.  Returns the
    sorted list together with the final on-disk images directory. -/
def extract_all_images (entries : List (String × String)) :
    List (Nat × String) × (String → Option String) :=
  let r := entries.foldl
    (fun (acc : List (Nat × String) × (String → Option String)) e =>
      match keepEntry e with
      | none => acc
      | some np => (acc.1 ++ [np], fun q => if q = np.2 then some e.2 else acc.2 q))
    ([], fun _ => none)
  (sortByFst r.1, r.2)

/-- Specification-side description of last-write-wins persistence: the bytes
    written at file name `q` are those of the last kept entry whose target
    file name is `q`. -/
def lastWriteOf (entries : List (String × String)) (q : String) : Option String :=
  entries.foldl
    (fun acc e =>
      match keepEntry e with
      | none => acc
      | some np => if q = np.2 then some e.2 else acc)
    none

theorem mem_insSorted {α : Type} (x z : Nat × α) :
    ∀ l, z ∈ insSorted x l → z = x ∨ z ∈ l := by
  intro l
  induction l with
  | nil => intro h; simp [insSorted] at h; exact Or.inl h
  | cons y ys ih =>
    intro h
    rw [insSorted] at h
    by_cases hle : y.1 ≤ x.1
    · rw [if_pos hle] at h
      rcases List.mem_cons.mp h with h1 | h1
      · exact Or.inr (by simp [h1])
      · rcases ih h1 with h2 | h2
        · exact Or.inl h2
        · exact Or.inr (List.mem_cons_of_mem _ h2)
    · rw [if_neg hle] at h
      rcases List.mem_cons.mp h with h1 | h1
      · exact Or.inl h1
      · exact Or.inr h1

theorem insSorted_pairwise {α : Type} (x : Nat × α) :
    ∀ l, List.Pairwise (fun a b : Nat × α => a.1 ≤ b.1) l →
      List.Pairwise (fun a b : Nat × α => a.1 ≤ b.1) (insSorted x l) := by
  intro l
  induction l with
  | nil => intro _; simp [insSorted]
  | cons y ys ih =>
    intro h
    rw [List.pairwise_cons] at h
    rw [insSorted]
    by_cases hle : y.1 ≤ x.1
    · rw [if_pos hle]
      rw [List.pairwise_cons]
      refine ⟨fun z hz => ?_, ih h.2⟩
      rcases mem_insSorted x z ys hz with h1 | h1
      · rw [h1]; exact hle
      · exact h.1 z h1
    · rw [if_neg hle]
      have hxy : x.1 ≤ y.1 := Nat.le_of_lt (Nat.lt_of_not_le hle)
      rw [List.pairwise_cons]
      refine ⟨fun z hz => ?_, ?_⟩
      · rcases List.mem_cons.mp hz with h1 | h1
        · rw [h1]; exact hxy
        · exact Nat.le_trans hxy (h.1 z h1)
      · rw [List.pairwise_cons]
        exact h

theorem sortByFst_pairwise {α : Type} (l : List (Nat × α)) :
    List.Pairwise (fun a b : Nat × α => a.1 ≤ b.1) (sortByFst l) := by
  have hgen : ∀ (l acc : List (Nat × α)),
      List.Pairwise (fun a b : Nat × α => a.1 ≤ b.1) acc →
      List.Pairwise (fun a b : Nat × α => a.1 ≤ b.1)
        (l.foldl (fun acc x => insSorted x acc) acc) := by
    intro l
    induction l with
    | nil => intro acc h; exact h
    | cons x xs ih =>
      intro acc h
      exact ih (insSorted x acc) (insSorted_pairwise x acc h)
  exact hgen l [] (by simp)

theorem insSorted_perm {α : Type} (x : Nat × α) :
    ∀ l, List.Perm (insSorted x l) (x :: l) := by
  intro l
  induction l with
  | nil => simp [insSorted]
  | cons y ys ih =>
    rw [insSorted]
    by_cases hle : y.1 ≤ x.1
    · rw [if_pos hle]
      exact (ih.cons y).trans (List.Perm.swap x y ys)
    · rw [if_neg hle]

theorem sortByFst_perm {α : Type} (l : List (Nat × α)) : List.Perm (sortByFst l) l := by
  have hgen : ∀ (l acc : List (Nat × α)),
      List.Perm (l.foldl (fun acc x => insSorted x acc) acc) (acc ++ l) := by
    intro l
    induction l with
    | nil => intro acc; simp
    | cons x xs ih =>
      intro acc
      refine (ih (insSorted x acc)).trans ?_
      have h1 : List.Perm (insSorted x acc ++ xs) ((x :: acc) ++ xs) :=
        (insSorted_perm x acc).append_right xs
      exact h1.trans List.perm_middle.symm
  simpa using hgen l []

end EpubOcr

namespace EpubOcr

/-- Claim C9 (counterexample): two container entries carrying the same
    embedded page number produce two list entries for that number — the later
    extraction overwrites the earlier file on disk but the returned store
    list still holds the number twice, refuting uniqueness. -/
theorem claim9_counterexample :
    (extract_all_images [("a/index-3.png", "d1"), ("b/index-3.png", "d2")]).1 =
      [(3, "page_0003.png"), (3, "page_0003.png")] ∧
    ¬ ((extract_all_images [("a/index-3.png", "d1"), ("b/index-3.png", "d2")]).1.map
        Prod.fst).Nodup ∧
    (extract_all_images [("a/index-3.png", "d1"), ("b/index-3.png", "d2")]).2
      "page_0003.png" = some "d2" := by
  refine ⟨by decide, by decide, by decide⟩

/-- Claim C9 (amended): the on-disk image store is last-write-wins — a later
    extraction of the same page number (and extension) overwrites the earlier
    file — but the returned extraction list appends unconditionally, so page
    numbers are unique in the store list only when the kept container entries
    carry pairwise-distinct embedded numbers (see the counterexample for the
    duplicate case). -/
theorem store_unique_amended :
    (∀ (entries : List (String × String)) (q : String),
      (extract_all_images entries).2 q = lastWriteOf entries q) ∧
    (∀ entries : List (String × String),
      (entries.filterMap (fun e => (keepEntry e).map Prod.fst)).Nodup →
      ((extract_all_images entries).1.map Prod.fst).Nodup) := by
  have disk_fold : ∀ (entries : List (String × String))
      (acc : List (Nat × String) × (String → Option String)) (q : String),
      ((entries.foldl
        (fun (acc : List (Nat × String) × (String → Option String)) e =>
          match keepEntry e with
          | none => acc
          | some np => (acc.1 ++ [np], fun q => if q = np.2 then some e.2 else acc.2 q))
        acc).2) q =
      entries.foldl
        (fun a e =>
          match keepEntry e with
          | none => a
          | some np => if q = np.2 then some e.2 else a)
        (acc.2 q) := by
    intro entries
    induction entries with
    | nil => intro acc q; rfl
    | cons e rest ih =>
      intro acc q
      rw [List.foldl_cons, List.foldl_cons, ih]
      rcases hk : keepEntry e with _ | np <;> simp [hk]
  have list_fold : ∀ (entries : List (String × String))
      (acc : List (Nat × String) × (String → Option String)),
      ((entries.foldl
        (fun (acc : List (Nat × String) × (String → Option String)) e =>
          match keepEntry e with
          | none => acc
          | some np => (acc.1 ++ [np], fun q => if q = np.2 then some e.2 else acc.2 q))
        acc).1) = acc.1 ++ entries.filterMap keepEntry := by
    intro entries
    induction entries with
    | nil => intro acc; simp
    | cons e rest ih =>
      intro acc
      rw [List.foldl_cons, ih]
      rcases hk : keepEntry e with _ | np <;>
        simp [hk, List.filterMap_cons]
  constructor
  · intro entries q
    rw [extract_all_images]
    exact disk_fold entries ([], fun _ => none) q
  · intro entries hnd
    have h1 : (extract_all_images entries).1 = sortByFst (entries.filterMap keepEntry) := by
      rw [extract_all_images]
      rw [list_fold entries ([], fun _ => none)]
      rfl
    rw [h1]
    have hperm : List.Perm ((sortByFst (entries.filterMap keepEntry)).map Prod.fst)
        ((entries.filterMap keepEntry).map Prod.fst) :=
      (sortByFst_perm (entries.filterMap keepEntry)).map Prod.fst
    rw [hperm.nodup_iff]
    have hmap : (entries.filterMap keepEntry).map Prod.fst =
        entries.filterMap (fun e => (keepEntry e).map Prod.fst) := by
      simp [List.map_filterMap]
    rw [hmap]
    exact hnd

/-- Claim C9 (witness): the amended uniqueness theorem applied to a container
    with distinct embedded page numbers. -/
theorem store_unique_amended_witness :
    (([("index-1.png", "a"), ("index-2.png", "b")] : List (String × String)).filterMap
      (fun e => (keepEntry e).map Prod.fst)).Nodup ∧
    ((extract_all_images [("index-1.png", "a"), ("index-2.png", "b")]).1.map Prod.fst).Nodup :=
  ⟨by decide, store_unique_amended.2 [("index-1.png", "a"), ("index-2.png", "b")] (by decide)⟩

end EpubOcr

namespace EpubOcr

/-- Embedding of the extraction loop of `extract_images_from_epub` as shared
    by scan_chapters.py (which returns the (page number, path) pairs) and
    parse_epub_ocr.py / parse_epub_ocr_v2.py (which keep only the paths):
    append each kept entry in archive order, then sort ascending by page
    number. -/
def extract_images_from_epub_pairs (entries : List (String × String)) : List (Nat × String) :=
  sortByFst (entries.foldl
    (fun acc e =>
      match keepEntry e with
      | none => acc
      | some np => acc ++ [np])
    [])

/-- Path-only result of `extract_images_from_epub` in parse_epub_ocr.py
    (`return [f[1] for f in image_files]`): the page numbers are dropped. -/
def extract_images_from_epub_paths (entries : List (String × String)) : List String :=
  (extract_images_from_epub_pairs entries).map Prod.snd

/-- Embedding of `scan_all_pages(image_files)` from scan_chapters.py: walk the
    (page number, path) pairs in store order, and record the store page
    number together with the extracted title whenever the page is a chapter
    start. -/
def scan_all_pages (ocr : String → String) (image_files : List (Nat × String)) :
    List (Nat × String) :=
  image_files.foldl
    (fun chapters p =>
      match extract_chapter_from_page (ocr p.2) with
      | some title => chapters ++ [(p.1, title)]
      | none => chapters)
    []

/-- Embedding of `scan_all_pages_for_chapters(image_files)` from
    parse_epub_ocr.py: walk the path list with `enumerate`, and record
    `i + 1` — the 1-based ordinal position of the page in the iteration, the
    only number available since the extraction dropped the page numbers —
    together with the extracted title. -/
def scan_all_pages_for_chapters (ocr : String → String) (image_files : List String) :
    List (Nat × String) :=
  image_files.enum.foldl
    (fun chapters ip =>
      match scan_page_chapter_v1 (ocr ip.2) with
      | some name => chapters ++ [(ip.1 + 1, name)]
      | none => chapters)
    []

/-- The special-section alternation
    `(?:前言|序言|序|引言|导论|绑论|结语|后记|附录|目录)` of parse_epub_ocr.py,
    in source order (the fifth entry is the source's own misspelling of 绪论). -/
def specialWords : List (List Char) :=
  ["前言", "序言", "序", "引言", "导论", "绑论", "结语", "后记", "附录", "目录"].map
    String.toList

/-- Alternation matcher: the first literal alternative that is a prefix of
    the input wins, as in the regex engine's left-to-right alternation. -/
def matchAltAt (alts : List (List Char)) (cs : List Char) : Option (List Char × List Char) :=
  match alts with
  | [] => none
  | a :: rest =>
    match matchLit a cs with
    | some r => some (a, r)
    | none => matchAltAt rest cs

/-- Core of a match attempt of `[第]?\d+[\.、\s][^\n]{2,20}` after the optional
    marker has been resolved: a maximal nonempty digit run, one separator
    character, and 2 to 20 further non-newline characters (greedy). -/
def matchNumCore (pre : List Char) (rest : List Char) : Option (List Char × List Char) :=
  let rd := takeRun isAsciiDigit rest
  if rd.1.isEmpty then none
  else
    match rd.2 with
    | [] => none
    | c :: r2 =>
      if c = '.' || c = '、' || isPySpace c then
        let t := takeUpTo (fun ch => ch ≠ '\n') 20 r2
        if 2 ≤ t.1.length then some (pre ++ rd.1 ++ c :: t.1, t.2) else none
      else none

/-- Embedding of a match attempt of `[第]?\d+[\.、\s][^\n]{2,20}` at one
    position: when the optional marker glyph is present it must be consumed,
    because the mandatory digit run cannot match the glyph itself. -/
def matchNumListAt (cs : List Char) : Option (List Char × List Char) :=
  match cs with
  | '第' :: rest => matchNumCore ['第'] rest
  | _ => matchNumCore [] cs

/-- Embedding of a match attempt of `[A-Z][a-z]+\s+\d+` at one position. -/
def matchEngAt (cs : List Char) : Option (List Char × List Char) :=
  match cs with
  | [] => none
  | c :: rest =>
    if 'A' ≤ c ∧ c ≤ 'Z' then
      let lo := takeRun (fun ch => 'a' ≤ ch && ch ≤ 'z') rest
      if lo.1.isEmpty then none
      else
        let ws := takeRun isPySpace lo.2
        if ws.1.isEmpty then none
        else
          let ds := takeRun isAsciiDigit ws.2
          if ds.1.isEmpty then none
          else some (c :: lo.1 ++ ws.1 ++ ds.1, ds.2)
    else none

/-- Cleaning of `extract_chapter_titles` in parse_epub_ocr.py:
    `match.strip().replace('\n', ' ')`. -/
def cleanTitleV0 (m : List Char) : List Char :=
  (pyStrip m).map (fun c => if c = '\n' then ' ' else c)

/-- One pattern's pass of `extract_chapter_titles`: clean every match and
    append it when longer than 1 character and not yet collected. -/
def extendTitles (chapters : List String) (ms : List (List Char)) : List String :=
  ms.foldl
    (fun ch m =>
      let clean := cleanTitleV0 m
      if 1 < clean.length ∧ String.mk clean ∉ ch then ch ++ [String.mk clean] else ch)
    chapters

/-- Embedding of `extract_chapter_titles(text)` from parse_epub_ocr.py: run
    the four patterns in source order, sharing the collected list. -/
def extract_chapter_titles (text : String) : List String :=
  extendTitles
    (extendTitles
      (extendTitles
        (extendTitles []
          (findAll (matchHeaderAt isNumCommon unitsFull (fun _ => true) 30) text.toList))
        (findAll matchNumListAt text.toList))
      (findAll (matchAltAt specialWords) text.toList))
    (findAll matchEngAt text.toList)

/-- Embedding of `find_toc_pages(image_files, max_pages)` from
    parse_epub_ocr.py: over the early page window, collect every page's
    extracted titles whenever the page carries a TOC marker or yields at
    least 3 candidates. -/
def find_toc_pages (ocr : String → String) (image_files : List String)
    (max_pages : Nat) : List String :=
  (image_files.take max_pages).foldl
    (fun acc path =>
      let text := ocr path
      let chapters := extract_chapter_titles text
      if containsSub "目录".toList text.toList = true ∨
          containsSub "目 录".toList text.toList = true ∨ 3 ≤ chapters.length
      then acc ++ chapters
      else acc)
    []

/-- Embedding of the chapter-discovery flow of `main` in parse_epub_ocr.py:
    run the TOC scan over the first 20 pages; only when it yields nothing,
    fall back to the full-book scan. -/
def parseMainResult (ocr : String → String) (entries : List (String × String)) :
    Sum (List String) (List (Nat × String)) :=
  let image_files := extract_images_from_epub_paths entries
  let toc_chapters := find_toc_pages ocr image_files 20
  if toc_chapters.isEmpty then Sum.inr (scan_all_pages_for_chapters ocr image_files)
  else Sum.inl toc_chapters

end EpubOcr

namespace EpubOcr

/-- Claim C8 (counterexample): with a store whose embedded page numbers are 7
    and 3 (a gap, as the data model allows), the full scan of
    parse_epub_ocr.py records the chapter page as `(2, title)` — its 1-based
    ordinal position in the iteration — although 2 is not an embedded page
    number of the store, refuting the claim that the store page number is
    recorded; scan_chapters.py's full scan records the true store number 7
    for the same store. -/
theorem claim8_counterexample :
    scan_all_pages_for_chapters
      (fun p => if p = "page_0007.png" then "第一章 测试\n这是正文" else "这是普通正文页面")
      (extract_images_from_epub_paths [("OEBPS/index-7.png", "b"), ("OEBPS/index-3.png", "a")])
      = [(2, "第一章 测试 这是正文")] ∧
    2 ∉ ([("OEBPS/index-7.png", "b"), ("OEBPS/index-3.png", "a")] :
      List (String × String)).filterMap (fun e => findIndexNum e.1.toList) ∧
    scan_all_pages
      (fun p => if p = "page_0007.png" then "第一章 测试\n这是正文" else "这是普通正文页面")
      (extract_images_from_epub_pairs [("OEBPS/index-7.png", "b"), ("OEBPS/index-3.png", "a")])
      = [(7, "第一章 测试 这是正文")] := by
  refine ⟨by decide, by decide, by decide⟩

theorem scan_all_pages_foldl (ocr : String → String) :
    ∀ (ps : List (Nat × String)) (acc : List (Nat × String)),
      ps.foldl
        (fun chapters p =>
          match extract_chapter_from_page (ocr p.2) with
          | some title => chapters ++ [(p.1, title)]
          | none => chapters)
        acc =
      acc ++ ps.filterMap
        (fun p => (extract_chapter_from_page (ocr p.2)).map (fun t => (p.1, t))) := by
  intro ps
  induction ps with
  | nil => intro acc; simp
  | cons p ps ih =>
    intro acc
    rw [List.foldl_cons, ih]
    rcases h : extract_chapter_from_page (ocr p.2) with _ | title <;>
      simp [h, List.filterMap_cons]

theorem scan_v1_foldl (ocr : String → String) :
    ∀ (l : List (Nat × String)) (acc : List (Nat × String)),
      l.foldl
        (fun chapters ip =>
          match scan_page_chapter_v1 (ocr ip.2) with
          | some name => chapters ++ [(ip.1 + 1, name)]
          | none => chapters)
        acc =
      acc ++ l.filterMap
        (fun ip => (scan_page_chapter_v1 (ocr ip.2)).map (fun t => (ip.1 + 1, t))) := by
  intro l
  induction l with
  | nil => intro acc; simp
  | cons ip l ih =>
    intro acc
    rw [List.foldl_cons, ih]
    rcases h : scan_page_chapter_v1 (ocr ip.2) with _ | name <;>
      simp [h, List.filterMap_cons]

/-- Claim C8 (amended): the full scan of scan_chapters.py records, for every
    ChapterStart page, the pair of that page's store page number and the
    extracted title, preserving the store's ascending page order (the
    extraction sorts the store ascending and the scan's record order follows
    the visit order); the full scan of parse_epub_ocr.py instead records the
    page's 1-based ordinal position in the iteration, which coincides with
    the store page number only for stores numbered contiguously from 1 (see
    the counterexample); and in parse_epub_ocr.py the full scan runs only
    when the TOC scan of the first 20 pages yields nothing. -/
theorem full_scan_amended :
    (∀ (ocr : String → String) (ps : List (Nat × String)),
      scan_all_pages ocr ps =
        ps.filterMap (fun p => (extract_chapter_from_page (ocr p.2)).map (fun t => (p.1, t)))) ∧
    (∀ (ocr : String → String) (imgs : List String),
      scan_all_pages_for_chapters ocr imgs =
        imgs.enum.filterMap
          (fun ip => (scan_page_chapter_v1 (ocr ip.2)).map (fun t => (ip.1 + 1, t)))) ∧
    (∀ entries : List (String × String),
      List.Pairwise (fun a b : Nat × String => a.1 ≤ b.1)
        (extract_images_from_epub_pairs entries)) ∧
    (∀ (ocr : String → String) (ps : List (Nat × String)),
      List.Pairwise (fun a b : Nat × String => a.1 ≤ b.1) ps →
      List.Pairwise (fun a b : Nat × String => a.1 ≤ b.1) (scan_all_pages ocr ps)) ∧
    (∀ (ocr : String → String) (entries : List (String × String)) (l : List (Nat × String)),
      parseMainResult ocr entries = Sum.inr l →
      find_toc_pages ocr (extract_images_from_epub_paths entries) 20 = []) := by
  have hpairs : ∀ (ocr : String → String) (ps : List (Nat × String)),
      scan_all_pages ocr ps =
        ps.filterMap (fun p => (extract_chapter_from_page (ocr p.2)).map (fun t => (p.1, t))) := by
    intro ocr ps
    rw [scan_all_pages, scan_all_pages_foldl ocr ps []]
    exact List.nil_append _
  refine ⟨hpairs, ?_, ?_, ?_, ?_⟩
  · intro ocr imgs
    rw [scan_all_pages_for_chapters, scan_v1_foldl ocr imgs.enum []]
    exact List.nil_append _
  · intro entries
    rw [extract_images_from_epub_pairs]
    exact sortByFst_pairwise _
  · intro ocr ps hsorted
    rw [hpairs]
    clear hpairs
    induction ps with
    | nil => simp
    | cons p ps ih =>
      rw [List.pairwise_cons] at hsorted
      rw [List.filterMap_cons]
      rcases h : extract_chapter_from_page (ocr p.2) with _ | title
      · exact ih hsorted.2
      · refine List.pairwise_cons.mpr ⟨fun z hz => ?_, ih hsorted.2⟩
        obtain ⟨a, ha, hfa⟩ := List.mem_filterMap.mp hz
        rcases h2 : extract_chapter_from_page (ocr a.2) with _ | t2
        · rw [h2] at hfa; simp at hfa
        · rw [h2] at hfa
          simp at hfa
          rw [← hfa]
          exact hsorted.1 a ha
  · intro ocr entries l h
    rw [parseMainResult] at h
    by_cases he : (find_toc_pages ocr (extract_images_from_epub_paths entries) 20).isEmpty
    · rcases hl : find_toc_pages ocr (extract_images_from_epub_paths entries) 20 with _ | ⟨x, xs⟩
      · rfl
      · rw [hl] at he; simp [List.isEmpty] at he
    · simp only [Bool.not_eq_true] at he
      rw [he] at h
      simp at h

/-- Claim C8 (witness): the amended fallback conjunct applied to a concrete
    container on which parse_epub_ocr.py takes the full-scan path. -/
theorem full_scan_amended_witness :
    parseMainResult
      (fun p => if p = "page_0007.png" then "第一章 测试\n这是正文" else "这是普通正文页面")
      [("OEBPS/index-7.png", "b"), ("OEBPS/index-3.png", "a")] =
      Sum.inr [(2, "第一章 测试 这是正文")] ∧
    find_toc_pages
      (fun p => if p = "page_0007.png" then "第一章 测试\n这是正文" else "这是普通正文页面")
      (extract_images_from_epub_paths [("OEBPS/index-7.png", "b"), ("OEBPS/index-3.png", "a")])
      20 = [] :=
  ⟨by decide,
    full_scan_amended.2.2.2.2
      (fun p => if p = "page_0007.png" then "第一章 测试\n这是正文" else "这是普通正文页面")
      [("OEBPS/index-7.png", "b"), ("OEBPS/index-3.png", "a")]
      [(2, "第一章 测试 这是正文")] (by decide)⟩

end EpubOcr
